import Mathlib

/-!
# Verification of the `more_ranges` crate

A shallow embedding of the range types provided by the `more_ranges` Rust
crate (`RangeFromExclusive`, `RangeFromExclusiveToInclusive`,
`RangeFromExclusiveToExclusive`) together with their iterator and indexing
operations, and proofs of the behavioural properties stated in the design
specification.

Element values of a fixed-width integer type are embedded as `Int`; the
type's numerical limits enter only through the checked stepping operations,
which take the relevant bound (`hi` or `lo`) as an explicit parameter.
Panics of the indexing operations are embedded as `Except.error` values
carrying a constructor per distinct panic message.
-/

/-- The maximum `usize` value on a 64-bit target. -/
def usizeMax : Nat := 2 ^ 64 - 1

/-- `RangeFromExclusive` (src/lib.rs): a range only bounded exclusively
below, containing all values with `x > start`. -/
structure RangeFromExclusive (Idx : Type) where
  start : Idx
deriving DecidableEq

/-- `RangeFromExclusiveToInclusive` (src/lib.rs): all values with
`x > start` and `x <= end`. -/
structure RangeFromExclusiveToInclusive (Idx : Type) where
  start : Idx
  «end» : Idx
deriving DecidableEq

/-- `RangeFromExclusiveToExclusive` (src/lib.rs): all values with
`x > start` and `x < end`. -/
structure RangeFromExclusiveToExclusive (Idx : Type) where
  start : Idx
  «end» : Idx
deriving DecidableEq

namespace StepInt

/-- The external `Step` capability `steps_between` for a fixed-width
integer type embedded in `Int`: the number of forward steps from `a` to
`b`, or `none` when `b < a`.  For every fixed-width integer type the crate
instantiates (each with at most `2 ^ 64` values on the targets where the
exact-length impl is compiled), a nonnegative distance always fits in
`usize`, so no upper cap is modelled. -/
def steps_between (a b : Int) : Option Nat :=
  if a ≤ b then some (b - a).toNat else none

/-- The external `Step` capability `forward_checked`: `a + n`, or `none`
when that would exceed the type maximum `hi`. -/
def forward_checked (hi a : Int) (n : Nat) : Option Int :=
  if a + n ≤ hi then some (a + n) else none

/-- The external `Step` capability `backward_checked`: `a - n`, or `none`
when that would pass below the type minimum `lo`. -/
def backward_checked (lo a : Int) (n : Nat) : Option Int :=
  if lo ≤ a - n then some (a - n) else none

/-- Rust's `Option<usize>` comparison `x > Some(1)`, where `None` orders
below every `Some`. -/
def optGtOne : Option Nat → Bool
  | none => false
  | some v => 1 < v

/-- Rust's `Option<usize>` comparison `x <= Some(1)`, where `None` orders
below every `Some`. -/
def optLeOne : Option Nat → Bool
  | none => true
  | some v => v ≤ 1

end StepInt

namespace RangeFromExclusiveToInclusive

/-- `<RangeFromExclusiveToInclusive as Iterator>::next` (src/lib.rs):
if `start < end`, step `start` forward by one and yield it; the updated
range is returned alongside the yielded value. -/
def next (r : RangeFromExclusiveToInclusive Int) :
    Option Int × RangeFromExclusiveToInclusive Int :=
  if r.start < r.«end» then
    (some (r.start + 1), ⟨r.start + 1, r.«end»⟩)
  else
    (none, r)

/-- `<RangeFromExclusiveToInclusive as Iterator>::size_hint` (src/lib.rs). -/
def size_hint (r : RangeFromExclusiveToInclusive Int) : Nat × Option Nat :=
  if r.start < r.«end» then
    ((StepInt.steps_between r.start r.«end»).getD usizeMax,
      StepInt.steps_between r.start r.«end»)
  else
    (0, some 0)

/-- `<RangeFromExclusiveToInclusive as Iterator>::nth` (src/lib.rs).
`hi` is the element type's maximum, consulted by `forward_checked`. -/
def nth (hi : Int) (r : RangeFromExclusiveToInclusive Int) (n : Nat) :
    Option Int × RangeFromExclusiveToInclusive Int :=
  if r.start = r.«end» then
    (none, r)
  else
    match StepInt.forward_checked hi r.start n with
    | some plus_n =>
      if plus_n < r.«end» then
        (some (plus_n + 1), ⟨plus_n + 1, r.«end»⟩)
      else
        (none, ⟨r.«end», r.«end»⟩)
    | none => (none, ⟨r.«end», r.«end»⟩)

/-- `<RangeFromExclusiveToInclusive as DoubleEndedIterator>::next_back`
(src/lib.rs): if `start < end`, step `end` backward by one and yield the
previous `end` value. -/
def next_back (r : RangeFromExclusiveToInclusive Int) :
    Option Int × RangeFromExclusiveToInclusive Int :=
  if r.start < r.«end» then
    (some r.«end», ⟨r.start, r.«end» - 1⟩)
  else
    (none, r)

/-- `<RangeFromExclusiveToInclusive as DoubleEndedIterator>::nth_back`
(src/lib.rs).  `lo` is the element type's minimum, consulted by
`backward_checked`. -/
def nth_back (lo : Int) (r : RangeFromExclusiveToInclusive Int) (n : Nat) :
    Option Int × RangeFromExclusiveToInclusive Int :=
  if r.start ≥ r.«end» then
    (none, r)
  else
    match StepInt.backward_checked lo r.«end» n with
    | some minus_n =>
      if r.start < minus_n then
        (some minus_n, ⟨r.start, minus_n - 1⟩)
      else
        (none, ⟨r.start, r.start⟩)
    | none => (none, ⟨r.start, r.start⟩)

/-- `<RangeFromExclusiveToInclusive as ExactSizeIterator>::len`
(src/lib.rs): `steps_between(start, end).unwrap()` when `start < end`,
else `0`. -/
def len (r : RangeFromExclusiveToInclusive Int) : Nat :=
  if r.start < r.«end» then (StepInt.steps_between r.start r.«end»).get! else 0

/-- Collect the values yielded by up to `fuel` successive calls of `next`,
stopping at the first `none`, together with the final range state. -/
def nextSeq : Nat → RangeFromExclusiveToInclusive Int →
    List Int × RangeFromExclusiveToInclusive Int
  | 0, r => ([], r)
  | fuel + 1, r =>
    match next r with
    | (none, r') => ([], r')
    | (some v, r') => ((nextSeq fuel r').1.cons v, (nextSeq fuel r').2)

/-- Collect the values yielded by up to `fuel` successive calls of
`next_back`, stopping at the first `none`, with the final range state. -/
def backSeq : Nat → RangeFromExclusiveToInclusive Int →
    List Int × RangeFromExclusiveToInclusive Int
  | 0, r => ([], r)
  | fuel + 1, r =>
    match next_back r with
    | (none, r') => ([], r')
    | (some v, r') => ((backSeq fuel r').1.cons v, (backSeq fuel r').2)

end RangeFromExclusiveToInclusive

namespace RangeFromExclusiveToExclusive

/-- `<RangeFromExclusiveToExclusive as Iterator>::next` (src/lib.rs):
advance only when `steps_between(start, end) > Some(1)`. -/
def next (r : RangeFromExclusiveToExclusive Int) :
    Option Int × RangeFromExclusiveToExclusive Int :=
  if StepInt.optGtOne (StepInt.steps_between r.start r.«end») then
    (some (r.start + 1), ⟨r.start + 1, r.«end»⟩)
  else
    (none, r)

/-- `<RangeFromExclusiveToExclusive as Iterator>::size_hint` (src/lib.rs). -/
def size_hint (r : RangeFromExclusiveToExclusive Int) : Nat × Option Nat :=
  match StepInt.steps_between r.start r.«end» with
  | some hint =>
    if 1 < hint then (hint - 1, some (hint - 1)) else (0, some 0)
  | none =>
    if r.start ≥ r.«end» then (0, some 0) else (usizeMax, none)

/-- `<RangeFromExclusiveToExclusive as Iterator>::nth` (src/lib.rs).
On overshoot the cursor clamps to one step before `end`. -/
def nth (hi : Int) (r : RangeFromExclusiveToExclusive Int) (n : Nat) :
    Option Int × RangeFromExclusiveToExclusive Int :=
  if StepInt.optLeOne (StepInt.steps_between r.start r.«end») then
    (none, r)
  else
    match StepInt.forward_checked hi r.start n with
    | some plus_n =>
      if StepInt.optGtOne (StepInt.steps_between plus_n r.«end») then
        (some (plus_n + 1), ⟨plus_n + 1, r.«end»⟩)
      else
        (none, ⟨r.«end» - 1, r.«end»⟩)
    | none => (none, ⟨r.«end» - 1, r.«end»⟩)

/-- `<RangeFromExclusiveToExclusive as DoubleEndedIterator>::next_back`
(src/lib.rs): step `end` backward by one and yield the new `end`. -/
def next_back (r : RangeFromExclusiveToExclusive Int) :
    Option Int × RangeFromExclusiveToExclusive Int :=
  if StepInt.optGtOne (StepInt.steps_between r.start r.«end») then
    (some (r.«end» - 1), ⟨r.start, r.«end» - 1⟩)
  else
    (none, r)

/-- `<RangeFromExclusiveToExclusive as DoubleEndedIterator>::nth_back`
(src/lib.rs).  On overshoot the cursor clamps to one step after `start`. -/
def nth_back (lo : Int) (r : RangeFromExclusiveToExclusive Int) (n : Nat) :
    Option Int × RangeFromExclusiveToExclusive Int :=
  if StepInt.optLeOne (StepInt.steps_between r.start r.«end») then
    (none, r)
  else
    match StepInt.backward_checked lo r.«end» n with
    | some minus_n =>
      if StepInt.optGtOne (StepInt.steps_between r.start minus_n) then
        (some (minus_n - 1), ⟨r.start, minus_n - 1⟩)
      else
        (none, ⟨r.start, r.start + 1⟩)
    | none => (none, ⟨r.start, r.start + 1⟩)

/-- `<RangeFromExclusiveToExclusive as ExactSizeIterator>::len`
(src/lib.rs): `steps_between(start, end).unwrap() - 1` when
`start < end`, else `0`. -/
def len (r : RangeFromExclusiveToExclusive Int) : Nat :=
  if r.start < r.«end» then
    (StepInt.steps_between r.start r.«end»).get! - 1
  else 0

/-- Collect the values yielded by up to `fuel` successive calls of `next`,
stopping at the first `none`, together with the final range state. -/
def nextSeq : Nat → RangeFromExclusiveToExclusive Int →
    List Int × RangeFromExclusiveToExclusive Int
  | 0, r => ([], r)
  | fuel + 1, r =>
    match next r with
    | (none, r') => ([], r')
    | (some v, r') => ((nextSeq fuel r').1.cons v, (nextSeq fuel r').2)

/-- Collect the values yielded by up to `fuel` successive calls of
`next_back`, stopping at the first `none`, with the final range state. -/
def backSeq : Nat → RangeFromExclusiveToExclusive Int →
    List Int × RangeFromExclusiveToExclusive Int
  | 0, r => ([], r)
  | fuel + 1, r =>
    match next_back r with
    | (none, r') => ([], r')
    | (some v, r') => ((backSeq fuel r').1.cons v, (backSeq fuel r').2)

end RangeFromExclusiveToExclusive

/-- The distinct panics of the indexing operations, one constructor per
panic message in src/lib.rs. -/
inductive IndexError where
  /-- "attempted to index slice exclusively from maximum usize" -/
  | exclusiveFromMax
  /-- "attempted to index slice inclusively to maximum usize" -/
  | inclusiveToMax
  /-- The underlying primitive `&l[a..b]` slicing panic. -/
  | outOfBounds
  /-- "index out of bounds: the len is {len} but the index is {idx}"
  (the CStr impl's own report). -/
  | cstrOutOfBounds (len idx : Nat)
deriving DecidableEq

/-- The underlying primitive slicing `&l[a..b]`: the elements at positions
`a, ..., b - 1`, panicking when `a > b` or `b > l.length`. -/
def sliceRange {α : Type} (l : List α) (a b : Nat) :
    Except IndexError (List α) :=
  if a ≤ b ∧ b ≤ l.length then .ok ((l.drop a).take (b - a))
  else .error .outOfBounds

/-- `<[T] as Index<RangeFromExclusive<usize>>>::index` (src/lib.rs):
guard `start == usize::MAX`, then `&self[(start + 1)..self.len()]`. -/
def indexSliceFromExclusive {α : Type} (l : List α)
    (r : RangeFromExclusive Nat) : Except IndexError (List α) :=
  if r.start = usizeMax then .error .exclusiveFromMax
  else sliceRange l (r.start + 1) l.length

/-- `<[T] as Index<RangeFromExclusiveToInclusive<usize>>>::index`
(src/lib.rs): guard `start == usize::MAX` and `end == usize::MAX`, then
`&self[(start + 1)..(end + 1)]`. -/
def indexSliceFromExclusiveToInclusive {α : Type} (l : List α)
    (r : RangeFromExclusiveToInclusive Nat) : Except IndexError (List α) :=
  if r.start = usizeMax then .error .exclusiveFromMax
  else if r.«end» = usizeMax then .error .inclusiveToMax
  else sliceRange l (r.start + 1) (r.«end» + 1)

/-- `<[T] as Index<RangeFromExclusiveToExclusive<usize>>>::index`
(src/lib.rs): guard `start == usize::MAX` only, then
`&self[(start + 1)..end]`. -/
def indexSliceFromExclusiveToExclusive {α : Type} (l : List α)
    (r : RangeFromExclusiveToExclusive Nat) : Except IndexError (List α) :=
  if r.start = usizeMax then .error .exclusiveFromMax
  else sliceRange l (r.start + 1) r.«end»

/-- `<CStr as Index<RangeFromExclusive<usize>>>::index` (src/lib.rs).
`bytes` is `self.to_bytes_with_nul()` (terminating null included): guard
`start == usize::MAX`, then keep the suffix from `start + 1` when
`start + 1 < bytes.len()`, else panic reporting the length and index. -/
def indexCStrFromExclusive (bytes : List Nat)
    (r : RangeFromExclusive Nat) : Except IndexError (List Nat) :=
  if r.start = usizeMax then .error .exclusiveFromMax
  else if r.start + 1 < bytes.length then .ok (bytes.drop (r.start + 1))
  else .error (.cstrOutOfBounds bytes.length r.start)

/-! ## Helper lemmas -/

namespace StepInt

theorem steps_between_of_le {a b : Int} (h : a ≤ b) :
    steps_between a b = some (b - a).toNat := by
  simp [steps_between, h]

theorem optGtOne_steps_iff (a b : Int) :
    optGtOne (steps_between a b) = true ↔ a + 1 < b := by
  unfold steps_between
  split_ifs with h <;> simp [optGtOne] <;> omega

theorem optLeOne_steps_iff (a b : Int) :
    optLeOne (steps_between a b) = true ↔ b ≤ a + 1 := by
  unfold steps_between
  split_ifs with h <;> simp [optLeOne] <;> omega

end StepInt

namespace RangeFromExclusiveToInclusive

theorem next_none_of_ge {s e : Int} (h : ¬ s < e) :
    next ⟨s, e⟩ = (none, ⟨s, e⟩) := by
  simp [next, h]

theorem next_back_none_of_ge {s e : Int} (h : ¬ s < e) :
    next_back ⟨s, e⟩ = (none, ⟨s, e⟩) := by
  simp [next_back, h]

theorem nextSeq_of_ge (fuel : Nat) {s e : Int} (h : ¬ s < e) :
    nextSeq fuel ⟨s, e⟩ = ([], ⟨s, e⟩) := by
  cases fuel with
  | zero => rfl
  | succ f => rw [nextSeq, next_none_of_ge h]

theorem backSeq_of_ge (fuel : Nat) {s e : Int} (h : ¬ s < e) :
    backSeq fuel ⟨s, e⟩ = ([], ⟨s, e⟩) := by
  cases fuel with
  | zero => rfl
  | succ f => rw [backSeq, next_back_none_of_ge h]

theorem nextSeq_run_incl : ∀ (g fuel : Nat) (s e : Int), e - s = (g : Int) →
    g ≤ fuel →
    nextSeq fuel ⟨s, e⟩ =
      ((List.range g).map (fun i : Nat => s + 1 + (i : Int)), ⟨e, e⟩) := by
  intro g
  induction g with
  | zero =>
    intro fuel s e he _
    have : e = s := by omega
    subst this
    simpa using nextSeq_of_ge fuel (lt_irrefl e)
  | succ g ih =>
    intro fuel s e he hf
    have hs : s < e := by omega
    obtain ⟨f, rfl⟩ : ∃ f, fuel = f + 1 := ⟨fuel - 1, by omega⟩
    have hnext : next ⟨s, e⟩ = (some (s + 1), ⟨s + 1, e⟩) := by
      simp [next, hs]
    have step : nextSeq (f + 1) ⟨s, e⟩ =
        ((s + 1) :: (nextSeq f ⟨s + 1, e⟩).1, (nextSeq f ⟨s + 1, e⟩).2) := by
      rw [nextSeq, hnext]
    have ihh := ih f (s + 1) e (by push_cast at he ⊢; omega) (by omega)
    rw [step, ihh, List.range_succ_eq_map, List.map_cons, List.map_map]
    have hfn : ((fun i : Nat => s + 1 + (i : Int)) ∘ Nat.succ) =
        (fun i : Nat => s + 1 + 1 + (i : Int)) := by
      funext i
      simp only [Function.comp_apply, Nat.succ_eq_add_one]
      push_cast
      ring
    rw [hfn]
    norm_num

theorem backSeq_run_incl : ∀ (g fuel : Nat) (s e : Int), e - s = (g : Int) →
    g ≤ fuel →
    backSeq fuel ⟨s, e⟩ =
      ((List.range g).map (fun i : Nat => e - (i : Int)), ⟨s, s⟩) := by
  intro g
  induction g with
  | zero =>
    intro fuel s e he _
    have : e = s := by omega
    subst this
    simpa using backSeq_of_ge fuel (lt_irrefl e)
  | succ g ih =>
    intro fuel s e he hf
    have hs : s < e := by omega
    obtain ⟨f, rfl⟩ : ∃ f, fuel = f + 1 := ⟨fuel - 1, by omega⟩
    have hback : next_back ⟨s, e⟩ = (some e, ⟨s, e - 1⟩) := by
      simp [next_back, hs]
    have step : backSeq (f + 1) ⟨s, e⟩ =
        (e :: (backSeq f ⟨s, e - 1⟩).1, (backSeq f ⟨s, e - 1⟩).2) := by
      rw [backSeq, hback]
    have ihh := ih f s (e - 1) (by push_cast at he ⊢; omega) (by omega)
    rw [step, ihh, List.range_succ_eq_map, List.map_cons, List.map_map]
    have hfn : ((fun i : Nat => e - (i : Int)) ∘ Nat.succ) =
        (fun i : Nat => e - 1 - (i : Int)) := by
      funext i
      simp only [Function.comp_apply, Nat.succ_eq_add_one]
      push_cast
      ring
    rw [hfn]
    norm_num

end RangeFromExclusiveToInclusive

namespace RangeFromExclusiveToExclusive

theorem next_none_of_small {s e : Int} (h : e ≤ s + 1) :
    next ⟨s, e⟩ = (none, ⟨s, e⟩) := by
  have hc : ¬ (StepInt.optGtOne (StepInt.steps_between s e) = true) := by
    rw [StepInt.optGtOne_steps_iff]; omega
  simp [next, hc]

theorem next_back_none_of_small {s e : Int} (h : e ≤ s + 1) :
    next_back ⟨s, e⟩ = (none, ⟨s, e⟩) := by
  have hc : ¬ (StepInt.optGtOne (StepInt.steps_between s e) = true) := by
    rw [StepInt.optGtOne_steps_iff]; omega
  simp [next_back, hc]

theorem next_step {s e : Int} (h : s + 1 < e) :
    next ⟨s, e⟩ = (some (s + 1), ⟨s + 1, e⟩) := by
  have hc : StepInt.optGtOne (StepInt.steps_between s e) = true := by
    rw [StepInt.optGtOne_steps_iff]; omega
  simp [next, hc]

theorem next_back_step {s e : Int} (h : s + 1 < e) :
    next_back ⟨s, e⟩ = (some (e - 1), ⟨s, e - 1⟩) := by
  have hc : StepInt.optGtOne (StepInt.steps_between s e) = true := by
    rw [StepInt.optGtOne_steps_iff]; omega
  simp [next_back, hc]

theorem nextSeq_of_small (fuel : Nat) {s e : Int} (h : e ≤ s + 1) :
    nextSeq fuel ⟨s, e⟩ = ([], ⟨s, e⟩) := by
  cases fuel with
  | zero => rfl
  | succ f => rw [nextSeq, next_none_of_small h]

theorem backSeq_of_small (fuel : Nat) {s e : Int} (h : e ≤ s + 1) :
    backSeq fuel ⟨s, e⟩ = ([], ⟨s, e⟩) := by
  cases fuel with
  | zero => rfl
  | succ f => rw [backSeq, next_back_none_of_small h]

theorem nextSeq_run_excl : ∀ (k fuel : Nat) (s e : Int), e - s = (k : Int) + 1 →
    k ≤ fuel →
    nextSeq fuel ⟨s, e⟩ =
      ((List.range k).map (fun i : Nat => s + 1 + (i : Int)), ⟨e - 1, e⟩) := by
  intro k
  induction k with
  | zero =>
    intro fuel s e he _
    have h1 : e ≤ s + 1 := by omega
    have h2 : e - 1 = s := by omega
    rw [nextSeq_of_small fuel h1, h2]
    simp
  | succ k ih =>
    intro fuel s e he hf
    have hs : s + 1 < e := by omega
    obtain ⟨f, rfl⟩ : ∃ f, fuel = f + 1 := ⟨fuel - 1, by omega⟩
    have step : nextSeq (f + 1) ⟨s, e⟩ =
        ((s + 1) :: (nextSeq f ⟨s + 1, e⟩).1, (nextSeq f ⟨s + 1, e⟩).2) := by
      rw [nextSeq, next_step hs]
    have ihh := ih f (s + 1) e (by push_cast at he ⊢; omega) (by omega)
    rw [step, ihh, List.range_succ_eq_map, List.map_cons, List.map_map]
    have hfn : ((fun i : Nat => s + 1 + (i : Int)) ∘ Nat.succ) =
        (fun i : Nat => s + 1 + 1 + (i : Int)) := by
      funext i
      simp only [Function.comp_apply, Nat.succ_eq_add_one]
      push_cast
      ring
    rw [hfn]
    norm_num

theorem backSeq_run_excl : ∀ (k fuel : Nat) (s e : Int), e - s = (k : Int) + 1 →
    k ≤ fuel →
    backSeq fuel ⟨s, e⟩ =
      ((List.range k).map (fun i : Nat => e - 1 - (i : Int)), ⟨s, s + 1⟩) := by
  intro k
  induction k with
  | zero =>
    intro fuel s e he _
    have h1 : e ≤ s + 1 := by omega
    have h2 : e = s + 1 := by omega
    rw [backSeq_of_small fuel h1, h2]
    simp
  | succ k ih =>
    intro fuel s e he hf
    have hs : s + 1 < e := by omega
    obtain ⟨f, rfl⟩ : ∃ f, fuel = f + 1 := ⟨fuel - 1, by omega⟩
    have step : backSeq (f + 1) ⟨s, e⟩ =
        ((e - 1) :: (backSeq f ⟨s, e - 1⟩).1, (backSeq f ⟨s, e - 1⟩).2) := by
      rw [backSeq, next_back_step hs]
    have ihh := ih f s (e - 1) (by push_cast at he ⊢; omega) (by omega)
    rw [step, ihh, List.range_succ_eq_map, List.map_cons, List.map_map]
    have hfn : ((fun i : Nat => e - 1 - (i : Int)) ∘ Nat.succ) =
        (fun i : Nat => e - 1 - 1 - (i : Int)) := by
      funext i
      simp only [Function.comp_apply, Nat.succ_eq_add_one]
      push_cast
      ring
    rw [hfn]
    norm_num

end RangeFromExclusiveToExclusive

/-- Reversing the increasing enumeration `c, c + 1, ..., c + g - 1` gives
the decreasing enumeration starting at `c + g - 1`. -/
theorem reverse_map_range (g : Nat) (c : Int) :
    ((List.range g).map (fun i : Nat => c + (i : Int))).reverse =
      (List.range g).map (fun i : Nat => c + (g : Int) - 1 - (i : Int)) := by
  induction g with
  | zero => simp
  | succ g ih =>
    conv_lhs => rw [List.range_succ]
    conv_rhs => rw [List.range_succ_eq_map]
    simp only [List.map_append, List.map_cons, List.map_nil, List.reverse_append,
      List.reverse_cons, List.reverse_nil, List.nil_append, List.singleton_append,
      List.map_map]
    rw [ih]
    congr 1
    · push_cast; ring
    · have hfn : ((fun i : Nat => c + ((g : Nat) + 1 : Nat) - 1 - (i : Int)) ∘ Nat.succ) =
          (fun i : Nat => c + (g : Int) - 1 - (i : Int)) := by
        funext i
        simp only [Function.comp_apply, Nat.succ_eq_add_one]
        push_cast
        ring
      rw [hfn]

/-! ## Claim theorems -/

/-- C1: For `RangeFromExclusiveToInclusive` over a fixed-width integer type
with `start < end`, repeatedly calling `next()` yields exactly
`start + 1, start + 2, ..., end` in increasing order, ends in the exhausted
state `start = end` on which `next()` yields nothing, and the number of
yielded values equals `steps_between(start, end)`. -/
theorem claim_C1_forward_yields_all (s e : Int) (fuel : Nat)
    (hse : s < e) (hf : (e - s).toNat ≤ fuel) :
    (RangeFromExclusiveToInclusive.nextSeq fuel ⟨s, e⟩).1 =
      (List.range (e - s).toNat).map (fun i : Nat => s + 1 + (i : Int)) ∧
    (RangeFromExclusiveToInclusive.nextSeq fuel ⟨s, e⟩).2 = ⟨e, e⟩ ∧
    RangeFromExclusiveToInclusive.next ⟨e, e⟩ = (none, ⟨e, e⟩) ∧
    StepInt.steps_between s e =
      some ((RangeFromExclusiveToInclusive.nextSeq fuel ⟨s, e⟩).1).length := by
  have hg : e - s = (((e - s).toNat : Nat) : Int) :=
    (Int.toNat_of_nonneg (by omega)).symm
  have hrun := RangeFromExclusiveToInclusive.nextSeq_run_incl (e - s).toNat fuel s e hg hf
  rw [hrun]
  refine ⟨rfl, rfl, RangeFromExclusiveToInclusive.next_none_of_ge (lt_irrefl e), ?_⟩
  rw [StepInt.steps_between_of_le (le_of_lt hse)]
  simp

/-- Witness for C1 at `start = 1`, `end = 3`, `fuel = 2` (the spec's own
example: yields 2, then 3, then nothing). -/
theorem claim_C1_forward_yields_all_witness :
    (RangeFromExclusiveToInclusive.nextSeq 2 ⟨1, 3⟩).1 =
      (List.range ((3 : Int) - 1).toNat).map (fun i : Nat => 1 + 1 + (i : Int)) ∧
    (RangeFromExclusiveToInclusive.nextSeq 2 ⟨1, 3⟩).2 = ⟨3, 3⟩ ∧
    RangeFromExclusiveToInclusive.next ⟨3, 3⟩ = (none, ⟨3, 3⟩) ∧
    StepInt.steps_between 1 3 =
      some ((RangeFromExclusiveToInclusive.nextSeq 2 ⟨1, 3⟩).1).length :=
  claim_C1_forward_yields_all 1 3 2 (by decide) (by decide)

/-- C2: For `RangeFromExclusiveToExclusive` with `start < end`, repeated
`next()` yields exactly `start + 1, ..., end - 1`, then yields nothing
(the final state is a fixed point of `next`), and `size_hint()` reports
exactly `steps_between(start, end) - 1` floored at zero; in particular
`start = 1, end = 2` has size 0 and `start = 0, end = 2` has size 1. -/
theorem claim_C2_forward_and_size_hint (s e : Int) (fuel : Nat)
    (hse : s < e) (hf : (e - s).toNat ≤ fuel) :
    (RangeFromExclusiveToExclusive.nextSeq fuel ⟨s, e⟩).1 =
      (List.range ((e - s).toNat - 1)).map (fun i : Nat => s + 1 + (i : Int)) ∧
    RangeFromExclusiveToExclusive.next
        ((RangeFromExclusiveToExclusive.nextSeq fuel ⟨s, e⟩).2) =
      (none, (RangeFromExclusiveToExclusive.nextSeq fuel ⟨s, e⟩).2) ∧
    RangeFromExclusiveToExclusive.size_hint ⟨s, e⟩ =
      ((e - s).toNat - 1, some ((e - s).toNat - 1)) ∧
    RangeFromExclusiveToExclusive.size_hint ⟨1, 2⟩ = (0, some 0) ∧
    RangeFromExclusiveToExclusive.size_hint ⟨0, 2⟩ = (1, some 1) := by
  have hk : e - s = (((e - s).toNat - 1 : Nat) : Int) + 1 := by omega
  have hkf : (e - s).toNat - 1 ≤ fuel := by omega
  have hrun := RangeFromExclusiveToExclusive.nextSeq_run_excl
    ((e - s).toNat - 1) fuel s e hk hkf
  rw [hrun]
  refine ⟨rfl, RangeFromExclusiveToExclusive.next_none_of_small (by omega), ?_, by decide,
    by decide⟩
  unfold RangeFromExclusiveToExclusive.size_hint
  rw [StepInt.steps_between_of_le (le_of_lt hse)]
  by_cases h1 : 1 < (e - s).toNat
  · simp [h1]
  · have h2 : (e - s).toNat = 1 := by omega
    simp [h2]

/-- Witness for C2 at `start = 1`, `end = 4`, `fuel = 3` (the spec's own
example: yields 2, then 3, then nothing), plus the two size examples. -/
theorem claim_C2_forward_and_size_hint_witness :
    (RangeFromExclusiveToExclusive.nextSeq 3 ⟨1, 4⟩).1 =
      (List.range (((4 : Int) - 1).toNat - 1)).map (fun i : Nat => 1 + 1 + (i : Int)) ∧
    RangeFromExclusiveToExclusive.next
        ((RangeFromExclusiveToExclusive.nextSeq 3 ⟨1, 4⟩).2) =
      (none, (RangeFromExclusiveToExclusive.nextSeq 3 ⟨1, 4⟩).2) ∧
    RangeFromExclusiveToExclusive.size_hint ⟨1, 4⟩ =
      (((4 : Int) - 1).toNat - 1, some (((4 : Int) - 1).toNat - 1)) ∧
    RangeFromExclusiveToExclusive.size_hint ⟨1, 2⟩ = (0, some 0) ∧
    RangeFromExclusiveToExclusive.size_hint ⟨0, 2⟩ = (1, some 1) :=
  claim_C2_forward_and_size_hint 1 4 3 (by decide) (by decide)

/-- C4: For both bounded range types, over any starting endpoints, the
sequence produced by repeated `next_back()` until exhaustion is exactly the
reverse of the sequence produced by repeated `next()` until exhaustion on an
identical starting range. -/
theorem claim_C4_backward_is_reverse (s e : Int) (fuel : Nat)
    (hf : (e - s).toNat ≤ fuel) :
    (RangeFromExclusiveToInclusive.backSeq fuel ⟨s, e⟩).1 =
      ((RangeFromExclusiveToInclusive.nextSeq fuel ⟨s, e⟩).1).reverse ∧
    (RangeFromExclusiveToExclusive.backSeq fuel ⟨s, e⟩).1 =
      ((RangeFromExclusiveToExclusive.nextSeq fuel ⟨s, e⟩).1).reverse := by
  constructor
  · rcases lt_or_le e s with h | h
    · rw [RangeFromExclusiveToInclusive.nextSeq_of_ge fuel (by omega),
        RangeFromExclusiveToInclusive.backSeq_of_ge fuel (by omega)]
      simp
    · have hg : e - s = (((e - s).toNat : Nat) : Int) :=
        (Int.toNat_of_nonneg (by omega)).symm
      rw [RangeFromExclusiveToInclusive.nextSeq_run_incl (e - s).toNat fuel s e hg hf,
        RangeFromExclusiveToInclusive.backSeq_run_incl (e - s).toNat fuel s e hg hf,
        reverse_map_range]
      refine congrArg₂ _ ?_ rfl
      funext i
      omega
  · rcases le_or_lt e (s + 1) with h | h
    · rw [RangeFromExclusiveToExclusive.nextSeq_of_small fuel h,
        RangeFromExclusiveToExclusive.backSeq_of_small fuel h]
      simp
    · have hk : e - s = (((e - s).toNat - 1 : Nat) : Int) + 1 := by omega
      have hkf : (e - s).toNat - 1 ≤ fuel := by omega
      rw [RangeFromExclusiveToExclusive.nextSeq_run_excl ((e - s).toNat - 1) fuel s e hk hkf,
        RangeFromExclusiveToExclusive.backSeq_run_excl ((e - s).toNat - 1) fuel s e hk hkf,
        reverse_map_range]
      refine congrArg₂ _ ?_ rfl
      funext i
      omega

/-- Witness for C4 at `start = 1`, `end = 3`, `fuel = 2` (the spec's own
example: `next_back()` yields 3, then 2, the reverse of 2, then 3). -/
theorem claim_C4_backward_is_reverse_witness :
    (RangeFromExclusiveToInclusive.backSeq 2 ⟨1, 3⟩).1 =
      ((RangeFromExclusiveToInclusive.nextSeq 2 ⟨1, 3⟩).1).reverse ∧
    (RangeFromExclusiveToExclusive.backSeq 2 ⟨1, 3⟩).1 =
      ((RangeFromExclusiveToExclusive.nextSeq 2 ⟨1, 3⟩).1).reverse :=
  claim_C4_backward_is_reverse 1 3 2 (by decide)

/-- C5: `len()` on `RangeFromExclusiveToInclusive` is 0 when
`start >= end` and otherwise the exact step count between `start` and
`end` (for a maximal 64-bit range it equals the type's value count minus
one); `len()` on `RangeFromExclusiveToExclusive` is 0 when `start >= end`
and otherwise the step count minus one (a truncated subtraction, never
below zero). -/
theorem claim_C5_exact_len (s e : Int) :
    (e ≤ s → RangeFromExclusiveToInclusive.len ⟨s, e⟩ = 0) ∧
    (s < e → RangeFromExclusiveToInclusive.len ⟨s, e⟩ = (e - s).toNat ∧
      StepInt.steps_between s e =
        some (RangeFromExclusiveToInclusive.len ⟨s, e⟩)) ∧
    (e ≤ s → RangeFromExclusiveToExclusive.len ⟨s, e⟩ = 0) ∧
    (s < e → RangeFromExclusiveToExclusive.len ⟨s, e⟩ = (e - s).toNat - 1) ∧
    RangeFromExclusiveToInclusive.len ⟨-(2 ^ 63), 2 ^ 63 - 1⟩ = 2 ^ 64 - 1 ∧
    RangeFromExclusiveToInclusive.len ⟨0, 2 ^ 64 - 1⟩ = 2 ^ 64 - 1 := by
  have hI : ∀ a b : Int, a < b →
      RangeFromExclusiveToInclusive.len ⟨a, b⟩ = (b - a).toNat := by
    intro a b hab
    unfold RangeFromExclusiveToInclusive.len
    rw [StepInt.steps_between_of_le (le_of_lt hab)]
    simp [hab]
  refine ⟨?_, ?_, ?_, ?_, ?_, ?_⟩
  · intro h
    simp [RangeFromExclusiveToInclusive.len, not_lt.mpr h]
  · intro h
    refine ⟨hI s e h, ?_⟩
    rw [hI s e h, StepInt.steps_between_of_le (le_of_lt h)]
  · intro h
    simp [RangeFromExclusiveToExclusive.len, not_lt.mpr h]
  · intro h
    unfold RangeFromExclusiveToExclusive.len
    rw [StepInt.steps_between_of_le (le_of_lt h)]
    simp [h]
  · rw [hI _ _ (by norm_num)]
    norm_num
    decide
  · rw [hI _ _ (by norm_num)]
    norm_num
    decide

/-- Witness for C5 at `start = 1, end = 3` (length 2), `start = 1, end = 2`
on the exclusive-upper type (length 0), and `start = 5, end = 3` (empty). -/
theorem claim_C5_exact_len_witness :
    RangeFromExclusiveToInclusive.len ⟨5, 3⟩ = 0 ∧
    RangeFromExclusiveToInclusive.len ⟨1, 3⟩ = ((3 : Int) - 1).toNat ∧
    RangeFromExclusiveToExclusive.len ⟨5, 3⟩ = 0 ∧
    RangeFromExclusiveToExclusive.len ⟨1, 2⟩ = ((2 : Int) - 1).toNat - 1 := by
  refine ⟨(claim_C5_exact_len 5 3).1 (by decide),
    ((claim_C5_exact_len 1 3).2.1 (by decide)).1,
    (claim_C5_exact_len 5 3).2.2.1 (by decide),
    (claim_C5_exact_len 1 2).2.2.2.1 (by decide)⟩

/-- C9: Whenever `next()` or `next_back()` of either bounded range type
returns nothing (empty or exhausted range, including `start > end`), the
call leaves the `start` and `end` fields exactly as they were. -/
theorem claim_C9_none_preserves_state
    (rI : RangeFromExclusiveToInclusive Int)
    (rE : RangeFromExclusiveToExclusive Int) :
    ((RangeFromExclusiveToInclusive.next rI).1 = none →
      (RangeFromExclusiveToInclusive.next rI).2 = rI) ∧
    ((RangeFromExclusiveToInclusive.next_back rI).1 = none →
      (RangeFromExclusiveToInclusive.next_back rI).2 = rI) ∧
    ((RangeFromExclusiveToExclusive.next rE).1 = none →
      (RangeFromExclusiveToExclusive.next rE).2 = rE) ∧
    ((RangeFromExclusiveToExclusive.next_back rE).1 = none →
      (RangeFromExclusiveToExclusive.next_back rE).2 = rE) := by
  refine ⟨?_, ?_, ?_, ?_⟩
  · unfold RangeFromExclusiveToInclusive.next
    split_ifs with h
    · intro hx; simp at hx
    · intro _; rfl
  · unfold RangeFromExclusiveToInclusive.next_back
    split_ifs with h
    · intro hx; simp at hx
    · intro _; rfl
  · unfold RangeFromExclusiveToExclusive.next
    split_ifs with h
    · intro hx; simp at hx
    · intro _; rfl
  · unfold RangeFromExclusiveToExclusive.next_back
    split_ifs with h
    · intro hx; simp at hx
    · intro _; rfl

/-- Witness for C9 at the already-empty ranges `(3, 3]` and `(3, 3)`, and
at the crossed range `(5, 3]`. -/
theorem claim_C9_none_preserves_state_witness :
    ((RangeFromExclusiveToInclusive.next ⟨3, 3⟩).2 =
      (⟨3, 3⟩ : RangeFromExclusiveToInclusive Int)) ∧
    ((RangeFromExclusiveToInclusive.next_back ⟨3, 3⟩).2 =
      (⟨3, 3⟩ : RangeFromExclusiveToInclusive Int)) ∧
    ((RangeFromExclusiveToExclusive.next ⟨3, 3⟩).2 =
      (⟨3, 3⟩ : RangeFromExclusiveToExclusive Int)) ∧
    ((RangeFromExclusiveToExclusive.next_back ⟨3, 3⟩).2 =
      (⟨3, 3⟩ : RangeFromExclusiveToExclusive Int)) ∧
    ((RangeFromExclusiveToInclusive.next ⟨5, 3⟩).2 =
      (⟨5, 3⟩ : RangeFromExclusiveToInclusive Int)) := by
  have h1 := claim_C9_none_preserves_state ⟨3, 3⟩ ⟨3, 3⟩
  have h2 := claim_C9_none_preserves_state ⟨5, 3⟩ ⟨3, 3⟩
  exact ⟨h1.1 (by decide), h1.2.1 (by decide), h1.2.2.1 (by decide),
    h1.2.2.2 (by decide), h2.1 (by decide)⟩

/-- C10: The empty-range guards of `RangeFromExclusiveToInclusive`'s `nth`
and `nth_back` are asymmetric: on a crossed range (`start > end`), `nth`
returns nothing but mutates the range by setting `start` equal to `end`
(the result differs from the input), whereas `nth_back` short-circuits on
`start >= end` and returns nothing with both fields unchanged. -/
theorem claim_C10_nth_guard_asymmetry (hi lo s e : Int) (n : Nat)
    (h : e < s) :
    RangeFromExclusiveToInclusive.nth hi ⟨s, e⟩ n = (none, ⟨e, e⟩) ∧
    (⟨e, e⟩ : RangeFromExclusiveToInclusive Int) ≠ ⟨s, e⟩ ∧
    RangeFromExclusiveToInclusive.nth_back lo ⟨s, e⟩ n = (none, ⟨s, e⟩) := by
  refine ⟨?_, ?_, ?_⟩
  · have h1 : ¬ (s = e) := by omega
    by_cases hc : s + (n : Int) ≤ hi
    · have h2 : ¬ (s + (n : Int) < e) := by
        have : (0 : Int) ≤ (n : Int) := Int.natCast_nonneg n
        omega
      simp [RangeFromExclusiveToInclusive.nth, StepInt.forward_checked, h1, hc, h2]
    · simp [RangeFromExclusiveToInclusive.nth, StepInt.forward_checked, h1, hc]
  · intro heq
    injection heq with h1 h2
    omega
  · simp [RangeFromExclusiveToInclusive.nth_back, le_of_lt h]

/-- Witness for C10 at the crossed range `(5, 3]` with `n = 2`. -/
theorem claim_C10_nth_guard_asymmetry_witness :
    RangeFromExclusiveToInclusive.nth 100 ⟨5, 3⟩ 2 = (none, ⟨3, 3⟩) ∧
    (⟨3, 3⟩ : RangeFromExclusiveToInclusive Int) ≠ ⟨5, 3⟩ ∧
    RangeFromExclusiveToInclusive.nth_back 0 ⟨5, 3⟩ 2 = (none, ⟨5, 3⟩) :=
  claim_C10_nth_guard_asymmetry 100 0 5 3 2 (by decide)

/-- Counterexample to C3 as stated: the claim quantifies over every bounded
range, but on the already-crossed range `(5, 3]` with `n = 0` (no less than
the zero remaining elements), `nth_back` returns nothing yet leaves the
cursors crossed (`end < start`), not `start == end`. -/
theorem claim_C3_overshoot_counterexample :
    (RangeFromExclusiveToInclusive.nth_back 0 ⟨5, 3⟩ 0).1 = none ∧
    ((RangeFromExclusiveToInclusive.nth_back 0 ⟨5, 3⟩ 0).2).«end» <
      ((RangeFromExclusiveToInclusive.nth_back 0 ⟨5, 3⟩ 0).2).start := by
  decide

/-- C3 (amended): for every nonempty bounded range and every `n` at least
the count of remaining elements, `nth(n)` and `nth_back(n)` return nothing
and leave the cursor exhausted: `start == end` for
`RangeFromExclusiveToInclusive` (clamped to `end` forward, to `start`
backward), and `start`/`end` exactly one step apart for
`RangeFromExclusiveToExclusive` (`start` clamped to one before `end`
forward, `end` clamped to one after `start` backward) — never crossed. -/
theorem claim_C3_overshoot_clamp (hi lo s e : Int) (n : Nat) :
    (s < e → (e - s).toNat ≤ n →
      RangeFromExclusiveToInclusive.nth hi ⟨s, e⟩ n = (none, ⟨e, e⟩)) ∧
    (s < e → (e - s).toNat ≤ n →
      RangeFromExclusiveToInclusive.nth_back lo ⟨s, e⟩ n = (none, ⟨s, s⟩)) ∧
    (s + 1 < e → (e - s).toNat - 1 ≤ n →
      RangeFromExclusiveToExclusive.nth hi ⟨s, e⟩ n = (none, ⟨e - 1, e⟩)) ∧
    (s + 1 < e → (e - s).toNat - 1 ≤ n →
      RangeFromExclusiveToExclusive.nth_back lo ⟨s, e⟩ n =
        (none, ⟨s, s + 1⟩)) := by
  refine ⟨?_, ?_, ?_, ?_⟩
  · intro hse hn
    have h1 : ¬ (s = e) := by omega
    by_cases hc : s + (n : Int) ≤ hi
    · have h2 : ¬ (s + (n : Int) < e) := by omega
      simp [RangeFromExclusiveToInclusive.nth, StepInt.forward_checked, h1, hc, h2]
    · simp [RangeFromExclusiveToInclusive.nth, StepInt.forward_checked, h1, hc]
  · intro hse hn
    have h1 : ¬ (s ≥ e) := by omega
    by_cases hc : lo ≤ e - (n : Int)
    · have h2 : ¬ (s < e - (n : Int)) := by omega
      simp [RangeFromExclusiveToInclusive.nth_back, StepInt.backward_checked,
        h1, hc, h2]
    · simp [RangeFromExclusiveToInclusive.nth_back, StepInt.backward_checked,
        h1, hc]
  · intro hse hn
    have hg : ¬ (StepInt.optLeOne (StepInt.steps_between s e) = true) := by
      rw [StepInt.optLeOne_steps_iff]; omega
    by_cases hc : s + (n : Int) ≤ hi
    · have h2 : ¬ (StepInt.optGtOne (StepInt.steps_between (s + (n : Int)) e)
          = true) := by
        rw [StepInt.optGtOne_steps_iff]; omega
      simp [RangeFromExclusiveToExclusive.nth, StepInt.forward_checked,
        hg, hc, h2]
    · simp [RangeFromExclusiveToExclusive.nth, StepInt.forward_checked, hg, hc]
  · intro hse hn
    have hg : ¬ (StepInt.optLeOne (StepInt.steps_between s e) = true) := by
      rw [StepInt.optLeOne_steps_iff]; omega
    by_cases hc : lo ≤ e - (n : Int)
    · have h2 : ¬ (StepInt.optGtOne (StepInt.steps_between s (e - (n : Int)))
          = true) := by
        rw [StepInt.optGtOne_steps_iff]; omega
      simp [RangeFromExclusiveToExclusive.nth_back, StepInt.backward_checked,
        hg, hc, h2]
    · simp [RangeFromExclusiveToExclusive.nth_back, StepInt.backward_checked,
        hg, hc]

/-- Witness for the amended C3 at the nonempty range with `start = 1`,
`end = 4` and the overshooting `n = 5`. -/
theorem claim_C3_overshoot_clamp_witness :
    RangeFromExclusiveToInclusive.nth 100 ⟨1, 4⟩ 5 = (none, ⟨4, 4⟩) ∧
    RangeFromExclusiveToInclusive.nth_back 0 ⟨1, 4⟩ 5 = (none, ⟨1, 1⟩) ∧
    RangeFromExclusiveToExclusive.nth 100 ⟨1, 4⟩ 5 = (none, ⟨4 - 1, 4⟩) ∧
    RangeFromExclusiveToExclusive.nth_back 0 ⟨1, 4⟩ 5 = (none, ⟨1, 1 + 1⟩) := by
  have h := claim_C3_overshoot_clamp 100 0 1 4 5
  exact ⟨h.1 (by decide) (by decide), h.2.1 (by decide) (by decide),
    h.2.2.1 (by decide) (by decide), h.2.2.2 (by decide) (by decide)⟩

/-- C6: Slice indexing translates the exclusive/inclusive bounds into the
half-open window `[start+1, length)` for `RangeFromExclusive`,
`[start+1, end+1)` for `RangeFromExclusiveToInclusive`, and
`[start+1, end)` for `RangeFromExclusiveToExclusive` (whenever the
overflow guards pass); on the slice `[0, 1, 2, 3, 4]`, the three example
ranges yield `[2, 3, 4]`, `[2, 3]`, and `[2]` respectively. -/
theorem claim_C6_slice_index_windows {α : Type} (l : List α) (s e : Nat) :
    (s ≠ usizeMax →
      indexSliceFromExclusive l ⟨s⟩ = sliceRange l (s + 1) l.length) ∧
    (s ≠ usizeMax → e ≠ usizeMax →
      indexSliceFromExclusiveToInclusive l ⟨s, e⟩ =
        sliceRange l (s + 1) (e + 1)) ∧
    (s ≠ usizeMax →
      indexSliceFromExclusiveToExclusive l ⟨s, e⟩ = sliceRange l (s + 1) e) ∧
    indexSliceFromExclusive ([0, 1, 2, 3, 4] : List Nat) ⟨1⟩ = .ok [2, 3, 4] ∧
    indexSliceFromExclusiveToInclusive ([0, 1, 2, 3, 4] : List Nat) ⟨1, 3⟩ =
      .ok [2, 3] ∧
    indexSliceFromExclusiveToExclusive ([0, 1, 2, 3, 4] : List Nat) ⟨1, 3⟩ =
      .ok [2] := by
  refine ⟨?_, ?_, ?_, rfl, rfl, rfl⟩
  · intro hs
    simp [indexSliceFromExclusive, hs]
  · intro hs he
    simp [indexSliceFromExclusiveToInclusive, hs, he]
  · intro hs
    simp [indexSliceFromExclusiveToExclusive, hs]

/-- Witness for C6 on the slice `[0, 1, 2, 3, 4]` with `start = 1`,
`end = 3`. -/
theorem claim_C6_slice_index_windows_witness :
    indexSliceFromExclusive ([0, 1, 2, 3, 4] : List Nat) ⟨1⟩ =
      sliceRange ([0, 1, 2, 3, 4] : List Nat) 2 5 ∧
    indexSliceFromExclusiveToInclusive ([0, 1, 2, 3, 4] : List Nat) ⟨1, 3⟩ =
      sliceRange ([0, 1, 2, 3, 4] : List Nat) 2 4 ∧
    indexSliceFromExclusiveToExclusive ([0, 1, 2, 3, 4] : List Nat) ⟨1, 3⟩ =
      sliceRange ([0, 1, 2, 3, 4] : List Nat) 2 3 := by
  have h := claim_C6_slice_index_windows ([0, 1, 2, 3, 4] : List Nat) 1 3
  exact ⟨h.1 (by decide), h.2.1 (by decide) (by decide), h.2.2.1 (by decide)⟩

/-- C7: For every slice, indexing with a range whose `start` field is the
maximum `usize` value panics with the exclusive-start guard for all three
range types, before any slicing is attempted; for
`RangeFromExclusiveToExclusive` only `start` is guarded — `end` is passed
unmodified to the underlying slicing primitive, even when it equals the
maximum `usize` value (contrast the inclusive-upper type, whose `end` has
its own guard). -/
theorem claim_C7_max_start_guard {α : Type} (l : List α) (s e : Nat) :
    indexSliceFromExclusive l ⟨usizeMax⟩ = .error .exclusiveFromMax ∧
    indexSliceFromExclusiveToInclusive l ⟨usizeMax, e⟩ =
      .error .exclusiveFromMax ∧
    indexSliceFromExclusiveToExclusive l ⟨usizeMax, e⟩ =
      .error .exclusiveFromMax ∧
    (s ≠ usizeMax →
      indexSliceFromExclusiveToInclusive l ⟨s, usizeMax⟩ =
        .error .inclusiveToMax) ∧
    (s ≠ usizeMax →
      indexSliceFromExclusiveToExclusive l ⟨s, e⟩ = sliceRange l (s + 1) e) := by
  refine ⟨?_, ?_, ?_, ?_, ?_⟩
  · simp [indexSliceFromExclusive]
  · simp [indexSliceFromExclusiveToInclusive]
  · simp [indexSliceFromExclusiveToExclusive]
  · intro hs
    simp [indexSliceFromExclusiveToInclusive, hs]
  · intro hs
    simp [indexSliceFromExclusiveToExclusive, hs]

/-- Witness for C7 on the slice `[0, 1, 2]` with `start = 1` and
`end = usizeMax`. -/
theorem claim_C7_max_start_guard_witness :
    indexSliceFromExclusive ([0, 1, 2] : List Nat) ⟨usizeMax⟩ =
      .error .exclusiveFromMax ∧
    indexSliceFromExclusiveToInclusive ([0, 1, 2] : List Nat)
      ⟨usizeMax, usizeMax⟩ = .error .exclusiveFromMax ∧
    indexSliceFromExclusiveToExclusive ([0, 1, 2] : List Nat)
      ⟨usizeMax, usizeMax⟩ = .error .exclusiveFromMax ∧
    indexSliceFromExclusiveToInclusive ([0, 1, 2] : List Nat) ⟨1, usizeMax⟩ =
      .error .inclusiveToMax ∧
    indexSliceFromExclusiveToExclusive ([0, 1, 2] : List Nat) ⟨1, usizeMax⟩ =
      sliceRange ([0, 1, 2] : List Nat) 2 usizeMax := by
  have h := claim_C7_max_start_guard ([0, 1, 2] : List Nat) 1 usizeMax
  exact ⟨h.1, h.2.1, h.2.2.1, h.2.2.2.1 (by decide), h.2.2.2.2 (by decide)⟩

/-- Counterexample to C8 as stated: at `start = usize::MAX` (on the byte
string `[0]`, length 1 with terminator) the operation does fail, but with
the generic max-start guard panic, not with the out-of-bounds message that
reports the attempted start index and the byte length. -/
theorem claim_C8_cstr_counterexample :
    indexCStrFromExclusive [0] ⟨usizeMax⟩ = .error .exclusiveFromMax ∧
    indexCStrFromExclusive [0] ⟨usizeMax⟩ ≠
      .error (.cstrOutOfBounds ([0] : List Nat).length usizeMax) := by
  refine ⟨?_, ?_⟩
  · simp [indexCStrFromExclusive]
  · simp [indexCStrFromExclusive]

/-- C8 (amended): indexing a null-terminated byte string with
`RangeFromExclusive` succeeds exactly when `start + 1` is strictly less
than the byte length including the terminator (the result is the nonempty
suffix, which retains the terminating null); otherwise it panics — when
`start` is not the maximum `usize` value, with the out-of-bounds message
reporting the attempted start index and the total byte length including
the terminator (at `start = usize::MAX` the max-start guard fires
instead). -/
theorem claim_C8_cstr_bounds (bytes : List Nat) (s : Nat)
    (hlen : bytes.length ≤ usizeMax) :
    ((∃ res, indexCStrFromExclusive bytes ⟨s⟩ = .ok res) ↔
      s + 1 < bytes.length) ∧
    (s + 1 < bytes.length →
      indexCStrFromExclusive bytes ⟨s⟩ = .ok (bytes.drop (s + 1)) ∧
      bytes.drop (s + 1) ≠ []) ∧
    (s ≠ usizeMax → ¬ s + 1 < bytes.length →
      indexCStrFromExclusive bytes ⟨s⟩ =
        .error (.cstrOutOfBounds bytes.length s)) := by
  refine ⟨⟨?_, ?_⟩, ?_, ?_⟩
  · rintro ⟨res, hres⟩
    unfold indexCStrFromExclusive at hres
    split_ifs at hres with h1 h2
    · exact h2
  · intro hlt
    have h1 : s ≠ usizeMax := by
      intro hh
      subst hh
      omega
    exact ⟨bytes.drop (s + 1), by simp [indexCStrFromExclusive, h1, hlt]⟩
  · intro hlt
    have h1 : s ≠ usizeMax := by
      intro hh
      subst hh
      omega
    refine ⟨by simp [indexCStrFromExclusive, h1, hlt], ?_⟩
    intro hnil
    have hdl : (bytes.drop (s + 1)).length = bytes.length - (s + 1) := by simp
    rw [hnil] at hdl
    simp at hdl
    omega
  · intro h1 h2
    simp [indexCStrFromExclusive, h1, h2]

/-- Witness for the amended C8 on the byte string `[97, 98, 0]`
(with terminator, length 3) at `start = 0` (in bounds) and `start = 2`
(out of bounds). -/
theorem claim_C8_cstr_bounds_witness :
    indexCStrFromExclusive [97, 98, 0] ⟨0⟩ =
      .ok (([97, 98, 0] : List Nat).drop 1) ∧
    ([97, 98, 0] : List Nat).drop 1 ≠ [] ∧
    indexCStrFromExclusive [97, 98, 0] ⟨2⟩ =
      .error (.cstrOutOfBounds ([97, 98, 0] : List Nat).length 2) := by
  have h0 := claim_C8_cstr_bounds [97, 98, 0] 0 (by decide)
  have h2 := claim_C8_cstr_bounds [97, 98, 0] 2 (by decide)
  have hk := h0.2.1 (by decide)
  exact ⟨hk.1, hk.2, h2.2.2 (by decide) (by decide)⟩
